import Mathlib

/-!
Verification of the `bs_utils` bootstrap-resampling library.

The Python source (`bs_utils.py`) provides four functions:
`get_rng`, `make_bs_lst`, `bs_prior`, `bs_corrs`.  We embed them shallowly:

* The MD5 digest, hex rendering, base-16 parsing and UTF-8 encoding used by
  `get_rng` are implemented in full (RFC 1321); machine words are `Nat`
  reduced `% 2^32` where the source's 32-bit arithmetic wraps.
* The external NumPy bit generator (`Generator(PCG64(SeedSequence(n)))`) is a
  black-box collaborator.  A constructed generator is determined by the
  integer entropy fed to its seed sequence; the draw primitive
  `rng.integers(low, high, size)` is modelled as a caller-supplied function
  `npI : Nat → Nat → Nat → Nat → Nat` mapping (entropy, low, high, flat
  C-order cell index) to the drawn integer, with the documented contract
  that draws lie in `[low, high)`.  Likewise `rng.normal` is a supplied
  function of (entropy, loc, scale, index).  The unseeded path
  `np.random.default_rng()` depends on ambient process entropy, modelled by
  an explicit `world : Nat` parameter.
* Float arrays are idealised as `List ℚ` (the trailing "observable" axes of
  a data array flattened to one axis); `np.sqrt` is a caller-supplied
  function `sq : ℚ → ℚ`.
* `sys.exit(msg)` terminates the process with status 1 and the diagnostic
  `msg`; calls return a `ProcResult` distinguishing normal return from exit.
-/

namespace BsUtils

/-! ### 32-bit words and the MD5 digest (RFC 1321), used by `get_rng` -/

def w32 : Nat := 4294967296

def rotl32 (x s : Nat) : Nat := ((x <<< s) ||| (x >>> (32 - s))) % w32

/-- The 64 MD5 sine-table constants `T[i+1] = floor(2^32 * abs(sin(i+1)))`. -/
def md5K : List Nat :=
  [0xd76aa478, 0xe8c7b756, 0x242070db, 0xc1bdceee,
   0xf57c0faf, 0x4787c62a, 0xa8304613, 0xfd469501,
   0x698098d8, 0x8b44f7af, 0xffff5bb1, 0x895cd7be,
   0x6b901122, 0xfd987193, 0xa679438e, 0x49b40821,
   0xf61e2562, 0xc040b340, 0x265e5a51, 0xe9b6c7aa,
   0xd62f105d, 0x02441453, 0xd8a1e681, 0xe7d3fbc8,
   0x21e1cde6, 0xc33707d6, 0xf4d50d87, 0x455a14ed,
   0xa9e3e905, 0xfcefa3f8, 0x676f02d9, 0x8d2a4c8a,
   0xfffa3942, 0x8771f681, 0x6d9d6122, 0xfde5380c,
   0xa4beea44, 0x4bdecfa9, 0xf6bb4b60, 0xbebfbc70,
   0x289b7ec6, 0xeaa127fa, 0xd4ef3085, 0x04881d05,
   0xd9d4d039, 0xe6db99e5, 0x1fa27cf8, 0xc4ac5665,
   0xf4292244, 0x432aff97, 0xab9423a7, 0xfc93a039,
   0x655b59c3, 0x8f0ccc92, 0xffeff47d, 0x85845dd1,
   0x6fa87e4f, 0xfe2ce6e0, 0xa3014314, 0x4e0811a1,
   0xf7537e82, 0xbd3af235, 0x2ad7d2bb, 0xeb86d391]

/-- Per-step left-rotation amounts of MD5. -/
def md5S : List Nat :=
  [7, 12, 17, 22, 7, 12, 17, 22, 7, 12, 17, 22, 7, 12, 17, 22,
   5, 9, 14, 20, 5, 9, 14, 20, 5, 9, 14, 20, 5, 9, 14, 20,
   4, 11, 16, 23, 4, 11, 16, 23, 4, 11, 16, 23, 4, 11, 16, 23,
   6, 10, 15, 21, 6, 10, 15, 21, 6, 10, 15, 21, 6, 10, 15, 21]

def md5F (b c d : Nat) : Nat := (b &&& c) ||| ((b ^^^ 0xffffffff) &&& d)

def md5G (b c d : Nat) : Nat := (d &&& b) ||| ((d ^^^ 0xffffffff) &&& c)

def md5H (b c d : Nat) : Nat := b ^^^ c ^^^ d

def md5I (b c d : Nat) : Nat := c ^^^ (b ||| (d ^^^ 0xffffffff))

/-- One of the 64 MD5 operations; `M` gives the block's sixteen 32-bit words. -/
def md5Round (M : Nat → Nat) (st : Nat × Nat × Nat × Nat) (i : Nat) :
    Nat × Nat × Nat × Nat :=
  let a := st.1
  let b := st.2.1
  let c := st.2.2.1
  let d := st.2.2.2
  let f := if i < 16 then md5F b c d else if i < 32 then md5G b c d
           else if i < 48 then md5H b c d else md5I b c d
  let g := if i < 16 then i else if i < 32 then (5 * i + 1) % 16
           else if i < 48 then (3 * i + 5) % 16 else (7 * i) % 16
  let x := (f + a + md5K.getD i 0 + M g) % w32
  (d, (b + rotl32 x (md5S.getD i 0)) % w32, b, c)

/-- Word `j` of a 64-byte block, assembled little-endian. -/
def blockWord (blk : List Nat) (j : Nat) : Nat :=
  blk.getD (4 * j) 0 + 256 * blk.getD (4 * j + 1) 0 +
    65536 * blk.getD (4 * j + 2) 0 + 16777216 * blk.getD (4 * j + 3) 0

def md5ProcessBlock (st : Nat × Nat × Nat × Nat) (blk : List Nat) :
    Nat × Nat × Nat × Nat :=
  let r := (List.range 64).foldl (md5Round (blockWord blk)) st
  ((st.1 + r.1) % w32, (st.2.1 + r.2.1) % w32,
   (st.2.2.1 + r.2.2.1) % w32, (st.2.2.2 + r.2.2.2) % w32)

/-- MD5 padding: `0x80`, zeros to 56 mod 64, then the bit length as 8
little-endian bytes. -/
def md5Pad (msg : List Nat) : List Nat :=
  msg ++ [128] ++ List.replicate ((119 - msg.length % 64) % 64) 0 ++
    (List.range 8).map (fun i => ((8 * msg.length) >>> (8 * i)) % 256)

def md5Chunks (padded : List Nat) : List (List Nat) :=
  (List.range (padded.length / 64)).map (fun i => (padded.drop (64 * i)).take 64)

/-- A 32-bit word as 4 little-endian bytes. -/
def wordBytesLE (x : Nat) : List Nat := (List.range 4).map (fun i => (x >>> (8 * i)) % 256)

/-- The 16-byte MD5 digest of a byte string. -/
def md5Bytes (msg : List Nat) : List Nat :=
  let st := (md5Chunks (md5Pad msg)).foldl md5ProcessBlock
    (0x67452301, 0xefcdab89, 0x98badcfe, 0x10325476)
  wordBytesLE st.1 ++ wordBytesLE st.2.1 ++ wordBytesLE st.2.2.1 ++ wordBytesLE st.2.2.2

/-! ### Hex rendering / parsing and UTF-8 encoding -/

/-- Lowercase hex digit, as produced by Python's `hexdigest()`. -/
def hexChar (n : Nat) : Char := if n < 10 then Char.ofNat (48 + n) else Char.ofNat (87 + n)

/-- `hashlib`'s `hexdigest()`: each byte as two lowercase hex characters. -/
def hexdigest (bs : List Nat) : String :=
  String.mk ((bs.map (fun b => [hexChar (b / 16), hexChar (b % 16)])).flatten)

/-- Value of one hex character (digits, upper and lower case letters). -/
def hexVal (c : Char) : Nat :=
  if c.toNat ≤ 57 then c.toNat - 48
  else if c.toNat ≤ 70 then c.toNat - 55
  else c.toNat - 87

/-- Python's `int(s, 16)` on a clean string of hex digits. -/
def int16 (s : String) : Nat := s.data.foldl (fun acc c => 16 * acc + hexVal c) 0

/-- Big-endian integer value of a byte string; `int(h.hexdigest(), 16)`
equals this on the digest bytes. -/
def beBytesVal (bs : List Nat) : Nat := bs.foldl (fun acc b => 256 * acc + b) 0

/-- UTF-8 encoding of one Unicode scalar value. -/
def utf8Char (n : Nat) : List Nat :=
  if n < 128 then [n]
  else if n < 2048 then [192 + n / 64, 128 + n % 64]
  else if n < 65536 then [224 + n / 4096, 128 + (n / 64) % 64, 128 + n % 64]
  else [240 + n / 262144, 128 + (n / 4096) % 64, 128 + (n / 64) % 64, 128 + n % 64]

/-- Python's `seed.encode("utf-8")`. -/
def strUtf8 (s : String) : List Nat := (s.data.map (fun c => utf8Char c.toNat)).flatten

/-! ### `get_rng` -/

/-- A NumPy `Generator(PCG64(SeedSequence(entropy)))`: the black-box stream
is fully determined by the seed-sequence entropy. -/
structure Generator where
  entropy : Nat
deriving DecidableEq

/-- Embedding of `get_rng`: MD5 of the UTF-8 seed string, hex digest,
parsed base 16, reduced mod 10^6, fed to the seed sequence. -/
def get_rng (seed : String) : Generator :=
  ⟨int16 (hexdigest (md5Bytes (strUtf8 seed))) % 10 ^ 6⟩

/-- Embedding of `np.random.default_rng()`: entropy drawn from the ambient
process state `world`. -/
def default_rng (world : Nat) : Generator := ⟨world⟩

/-- Python truthiness dispatch `get_rng(seed) if seed else np.random.default_rng()`:
`None` and the empty string are falsy. -/
def pick_rng (world : Nat) (seed : Option String) : Generator :=
  match seed with
  | some s => if s != "" then get_rng s else default_rng world
  | none => default_rng world

/-- Python truthiness dispatch `Mbs if Mbs else Ncfg` (`if m_bs: ... else: ...`):
`None` and `0` are falsy. -/
def default_m (mbs : Option Nat) (n : Nat) : Nat :=
  match mbs with
  | some k => if k != 0 then k else n
  | none => n

/-- `rng.integers(low, high, size=[rows, cols])`: a rows × cols matrix of
draws, cells filled in C order, each draw a function of the generator's
entropy and the flat cell index through the black box `npI`. -/
def gen_integers (npI : Nat → Nat → Nat → Nat → Nat) (g : Generator)
    (lo hi rows cols : Nat) : List (List Nat) :=
  (List.range rows).map (fun r => (List.range cols).map (fun c => npI g.entropy lo hi (r * cols + c)))

/-- Embedding of `make_bs_lst(n_bs, n_s, m_bs, seed)`. -/
def make_bs_lst (npI : Nat → Nat → Nat → Nat → Nat) (world n_bs n_s : Nat)
    (m_bs : Option Nat) (seed : Option String) : List (List Nat) :=
  let rng := pick_rng world seed
  let Mbs := default_m m_bs n_s
  gen_integers npI rng 0 n_s n_bs Mbs

/-- Outcome of a call that may terminate the process: a normal return, or a
`sys.exit` with an exit status and diagnostic message. -/
inductive ProcResult (α : Type) where
  | ok : α → ProcResult α
  | exit : Nat → String → ProcResult α
deriving DecidableEq

/-- Embedding of `bs_prior(n_bs, mean, sdev, seed, normal)`; `npNormal`
is the black-box `rng.normal` draw primitive.  `sys.exit(msg)` exits the
process with status 1 and diagnostic `msg`. -/
def bs_prior (npNormal : Nat → ℚ → ℚ → Nat → ℚ) (world n_bs : Nat)
    (mean sdev : ℚ) (seed : Option String) (normal : Bool) : ProcResult (List ℚ) :=
  let rng := pick_rng world seed
  if normal then ProcResult.ok ((List.range n_bs).map (npNormal rng.entropy mean sdev))
  else ProcResult.exit 1 "Non-Gaussian distributions not currently supported"

/-! ### Rational vector arithmetic for the NumPy array operations

A data array `corr` of shape `(Ncfg, Nt, ...)` is a list of `Ncfg`
observables, each observable the trailing axes flattened to a `List ℚ`.
Elementwise NumPy arithmetic and axis-0 reductions act pointwise on the
flattened observable. -/

abbrev Obs := List ℚ

def vadd (x y : Obs) : Obs := List.zipWith (· + ·) x y

def vsub (x y : Obs) : Obs := List.zipWith (· - ·) x y

def vsmul (c : ℚ) (x : Obs) : Obs := x.map (fun t => c * t)

/-- Sum of a list of observables (empty sum is the empty observable). -/
def vsum : List Obs → Obs
  | [] => []
  | v :: vs => vs.foldl vadd v

/-- NumPy `.mean` over the leading axis of a stack of observables. -/
def vmean (vs : List Obs) : Obs := vsmul (1 / (vs.length : ℚ)) (vsum vs)

/-- Fancy indexing `corr[bs_list[bs]]` for every replica `bs`: gather rows
of `corr` along the sample axis. -/
def gather (corr : List Obs) (bsl : List (List Nat)) : List (List Obs) :=
  bsl.map (fun row => row.map (fun i => corr.getD i []))

/-- `bs_mean + d * np.sqrt(m_bs / Ncfg)` for one cell: centre plus rescaled
deviation. -/
def rescaleObs (c : ℚ) (center x : Obs) : Obs := vadd center (vsmul c (vsub x center))

/-- Result array of `bs_corrs`: shape `[Nbs] + obs` when the draw axis is
averaged out, `[Nbs, m_bs] + obs` when `return_mbs` keeps it. -/
inductive BsArr where
  | reps : List Obs → BsArr
  | cells : List (List Obs) → BsArr
deriving DecidableEq

/-- Embedding of `bs_corrs(corr, Nbs, Mbs, seed, return_bs_list, return_mbs)`.
`sq` is the black-box `np.sqrt`.  NumPy's `mean(axis=(0,1))` of the
`[Nbs, m_bs]`-indexed stack is the mean of all its cells, i.e. `vmean` of
the flattened stack (all rows have equal length `m_bs`). -/
def bs_corrs (sq : ℚ → ℚ) (npI : Nat → Nat → Nat → Nat → Nat) (world : Nat)
    (corr : List Obs) (Nbs : Nat) (Mbs : Option Nat) (seed : Option String)
    (return_bs_list return_mbs : Bool) : BsArr × Option (List (List Nat)) :=
  let Ncfg := corr.length
  let m_bs := default_m Mbs Ncfg
  let rng := pick_rng world seed
  let bs_list := gen_integers npI rng 0 Ncfg Nbs m_bs
  let corr_bs := gather corr bs_list
  let c := sq ((m_bs : ℚ) / (Ncfg : ℚ))
  let out :=
    if return_mbs then
      let bs_mean := vmean corr_bs.flatten
      BsArr.cells (corr_bs.map (fun row => row.map (fun x => rescaleObs c bs_mean x)))
    else
      let means := corr_bs.map vmean
      let bs_mean := vmean means
      BsArr.reps (means.map (fun x => rescaleObs c bs_mean x))
  (out, if return_bs_list then some bs_list else none)

/-- A concrete instance of the black-box `rng.integers` draw primitive,
used to witness theorems: it satisfies the documented range contract. -/
def cNpI (e lo hi i : Nat) : Nat := lo + (e + i) % (hi - lo)

/-! ### Spec-side definitions of the two `bs_corrs` reduction modes,
written from the specification's description (gather, per-replica mean,
grand mean, rescaled deviation). -/

/-- Spec description of the default (`return_mbs = false`) mode: gather
`corr[bsl[bs]]`, average each replica over the draw axis, take the grand
mean over replicas, and return grand mean + rescaled deviation. -/
def spec_bs_corrs_default (sq : ℚ → ℚ) (corr : List Obs) (bsl : List (List Nat))
    (m_bs : Nat) : List Obs :=
  let gathered := bsl.map (fun row => row.map (fun i => corr.getD i []))
  let perReplica := gathered.map vmean
  let grand := vmean perReplica
  perReplica.map (fun x => vadd grand (vsmul (sq ((m_bs : ℚ) / (corr.length : ℚ))) (vsub x grand)))

/-- Spec description of the `return_mbs = true` mode: gather, take the grand
mean over both leading axes jointly, and return grand mean + rescaled
deviation, cell by cell, with no averaging over the draw axis. -/
def spec_bs_corrs_mbs (sq : ℚ → ℚ) (corr : List Obs) (bsl : List (List Nat))
    (m_bs : Nat) : List (List Obs) :=
  let gathered := bsl.map (fun row => row.map (fun i => corr.getD i []))
  let grand := vmean gathered.flatten
  gathered.map (fun row => row.map (fun x =>
    vadd grand (vsmul (sq ((m_bs : ℚ) / (corr.length : ℚ))) (vsub x grand))))

/-! ### Componentwise lemmas for the vector operations -/

theorem length_vadd (x y : Obs) : (vadd x y).length = min x.length y.length :=
  List.length_zipWith _ _ _

theorem length_vsub (x y : Obs) : (vsub x y).length = min x.length y.length :=
  List.length_zipWith _ _ _

theorem length_vsmul (c : ℚ) (x : Obs) : (vsmul c x).length = x.length :=
  List.length_map _ _

theorem getD_vadd (x y : Obs) (k : Nat) (hx : k < x.length) (hy : k < y.length) :
    (vadd x y).getD k 0 = x.getD k 0 + y.getD k 0 := by
  have h : k < (vadd x y).length := by rw [length_vadd]; omega
  rw [List.getD_eq_getElem _ _ h, List.getD_eq_getElem _ _ hx, List.getD_eq_getElem _ _ hy]
  exact List.getElem_zipWith

theorem getD_vsub (x y : Obs) (k : Nat) (hx : k < x.length) (hy : k < y.length) :
    (vsub x y).getD k 0 = x.getD k 0 - y.getD k 0 := by
  have h : k < (vsub x y).length := by rw [length_vsub]; omega
  rw [List.getD_eq_getElem _ _ h, List.getD_eq_getElem _ _ hx, List.getD_eq_getElem _ _ hy]
  exact List.getElem_zipWith

theorem getD_vsmul (c : ℚ) (x : Obs) (k : Nat) (hx : k < x.length) :
    (vsmul c x).getD k 0 = c * x.getD k 0 := by
  have h : k < (vsmul c x).length := by rw [length_vsmul]; omega
  rw [List.getD_eq_getElem _ _ h, List.getD_eq_getElem _ _ hx]
  exact List.getElem_map _

theorem foldl_vadd_length (T : Nat) (vs : List Obs) (acc : Obs) (hacc : acc.length = T)
    (hu : ∀ v ∈ vs, v.length = T) : (vs.foldl vadd acc).length = T := by
  induction vs generalizing acc with
  | nil => simpa using hacc
  | cons v vs ih =>
    simp only [List.foldl_cons]
    refine ih (vadd acc v) ?_ (fun w hw => hu w (List.mem_cons_of_mem _ hw))
    rw [length_vadd, hacc, hu v (List.mem_cons_self _ _)]
    omega

theorem foldl_vadd_getD (T : Nat) (vs : List Obs) (acc : Obs) (k : Nat)
    (hacc : acc.length = T) (hu : ∀ v ∈ vs, v.length = T) (hk : k < T) :
    (vs.foldl vadd acc).getD k 0 = acc.getD k 0 + (vs.map (fun v => v.getD k 0)).sum := by
  induction vs generalizing acc with
  | nil => simp
  | cons v vs ih =>
    simp only [List.foldl_cons, List.map_cons, List.sum_cons]
    rw [ih (vadd acc v) ?_ (fun w hw => hu w (List.mem_cons_of_mem _ hw))]
    · rw [getD_vadd acc v k (by omega) (by rw [hu v (List.mem_cons_self _ _)]; omega)]
      ring
    · rw [length_vadd, hacc, hu v (List.mem_cons_self _ _)]; omega

theorem length_vsum (T : Nat) (vs : List Obs) (hu : ∀ v ∈ vs, v.length = T)
    (hne : vs ≠ []) : (vsum vs).length = T := by
  match vs with
  | [] => exact absurd rfl hne
  | v :: vs =>
    exact foldl_vadd_length T vs v (hu v (List.mem_cons_self _ _))
      (fun w hw => hu w (List.mem_cons_of_mem _ hw))

theorem getD_vsum (T : Nat) (vs : List Obs) (k : Nat) (hu : ∀ v ∈ vs, v.length = T)
    (hne : vs ≠ []) (hk : k < T) :
    (vsum vs).getD k 0 = (vs.map (fun v => v.getD k 0)).sum := by
  match vs with
  | [] => exact absurd rfl hne
  | v :: vs =>
    show (vs.foldl vadd v).getD k 0 = _
    rw [foldl_vadd_getD T vs v k (hu v (List.mem_cons_self _ _))
      (fun w hw => hu w (List.mem_cons_of_mem _ hw)) hk]
    simp

theorem length_vmean (T : Nat) (vs : List Obs) (hu : ∀ v ∈ vs, v.length = T)
    (hne : vs ≠ []) : (vmean vs).length = T := by
  rw [vmean, length_vsmul]
  exact length_vsum T vs hu hne

theorem getD_vmean (T : Nat) (vs : List Obs) (k : Nat) (hu : ∀ v ∈ vs, v.length = T)
    (hne : vs ≠ []) (hk : k < T) :
    (vmean vs).getD k 0 = (1 / (vs.length : ℚ)) * (vs.map (fun v => v.getD k 0)).sum := by
  rw [vmean, getD_vsmul _ _ _ (by rw [length_vsum T vs hu hne]; omega),
    getD_vsum T vs k hu hne hk]

theorem eq_of_getD (x y : Obs) (hlen : x.length = y.length)
    (h : ∀ k, k < x.length → x.getD k 0 = y.getD k 0) : x = y := by
  refine List.ext_getElem hlen (fun k h1 h2 => ?_)
  have := h k h1
  rwa [List.getD_eq_getElem _ _ h1, List.getD_eq_getElem _ _ h2] at this

theorem length_rescaleObs (T : Nat) (c : ℚ) (center x : Obs)
    (hc : center.length = T) (hx : x.length = T) : (rescaleObs c center x).length = T := by
  rw [rescaleObs, length_vadd, length_vsmul, length_vsub, hc, hx]
  omega

theorem getD_rescaleObs (T : Nat) (c : ℚ) (center x : Obs) (k : Nat)
    (hc : center.length = T) (hx : x.length = T) (hk : k < T) :
    (rescaleObs c center x).getD k 0 =
      center.getD k 0 + c * (x.getD k 0 - center.getD k 0) := by
  rw [rescaleObs, getD_vadd _ _ _ (by omega)
      (by rw [length_vsmul, length_vsub, hc, hx]; omega),
    getD_vsmul _ _ _ (by rw [length_vsub, hc, hx]; omega),
    getD_vsub _ _ _ (by omega) (by omega)]

/-! ### Scalar mean-preservation algebra -/

theorem sum_map_rescale (l : List ℚ) (a c : ℚ) :
    (l.map (fun t => a + c * (t - a))).sum =
      (l.length : ℚ) * a + c * (l.sum - (l.length : ℚ) * a) := by
  induction l with
  | nil => simp
  | cons x l ih =>
    simp only [List.map_cons, List.sum_cons, ih, List.length_cons, List.sum_cons]
    push_cast
    ring

theorem mean_map_rescale (l : List ℚ) (c : ℚ) (hne : l ≠ []) :
    (1 / (l.length : ℚ)) *
        (l.map (fun t => (1 / (l.length : ℚ)) * l.sum +
          c * (t - (1 / (l.length : ℚ)) * l.sum))).sum =
      (1 / (l.length : ℚ)) * l.sum := by
  have hn : (l.length : ℚ) ≠ 0 := by
    have := List.length_pos.mpr hne
    exact_mod_cast Nat.pos_iff_ne_zero.mp this
  rw [sum_map_rescale]
  field_simp

/-- Rescaling a stack of observables about its own mean preserves the mean:
the vector-level core of the mean-preservation property. -/
theorem vmean_rescale (T : Nat) (c : ℚ) (vs : List Obs)
    (hu : ∀ v ∈ vs, v.length = T) (hne : vs ≠ []) :
    vmean (vs.map (fun x => rescaleObs c (vmean vs) x)) = vmean vs := by
  have hm : (vmean vs).length = T := length_vmean T vs hu hne
  have hu2 : ∀ v ∈ vs.map (fun x => rescaleObs c (vmean vs) x), v.length = T := by
    intro v hv
    obtain ⟨x, hx, rfl⟩ := List.mem_map.mp hv
    exact length_rescaleObs T c _ x hm (hu x hx)
  have hne2 : vs.map (fun x => rescaleObs c (vmean vs) x) ≠ [] := by
    simpa using hne
  refine eq_of_getD _ _ ?_ ?_
  · rw [length_vmean T _ hu2 hne2, hm]
  · intro k hk
    rw [length_vmean T _ hu2 hne2] at hk
    rw [getD_vmean T _ k hu2 hne2 hk, getD_vmean T vs k hu hne hk]
    have hmaps : (vs.map (fun x => rescaleObs c (vmean vs) x)).map (fun v => v.getD k 0) =
        vs.map (fun t => (vmean vs).getD k 0 + c * (t.getD k 0 - (vmean vs).getD k 0)) := by
      rw [List.map_map]
      refine List.map_congr_left (fun x hx => ?_)
      exact getD_rescaleObs T c _ x k hm (hu x hx) hk
    have hmk : (vmean vs).getD k 0 = (1 / (vs.length : ℚ)) *
        ((vs.map (fun v => v.getD k 0)).sum) := getD_vmean T vs k hu hne hk
    have hlen2 : ((vs.map (fun v => v.getD k 0)).length : ℚ) = (vs.length : ℚ) := by
      rw [List.length_map]
    rw [hmaps, List.length_map, hmk]
    have := mean_map_rescale (vs.map (fun v => v.getD k 0)) c (by simpa using hne)
    rw [hlen2] at this
    simpa only [List.map_map, Function.comp] using this

/-- Rescaling with factor 1 is the identity on equal-length observables. -/
theorem rescaleObs_one (center x : Obs) (h : center.length = x.length) :
    rescaleObs 1 center x = x := by
  refine eq_of_getD _ _ ?_ ?_
  · rw [length_rescaleObs x.length 1 center x h rfl]
  · intro k hk
    rw [length_rescaleObs x.length 1 center x h rfl] at hk
    rw [getD_rescaleObs x.length 1 center x k h rfl hk]
    ring

/-! ### Shape, range and truthiness helpers -/

theorem default_m_pos (mbs : Option Nat) (n : Nat) (hn : 0 < n) :
    0 < default_m mbs n := by
  match mbs with
  | none => exact hn
  | some k =>
    by_cases hk : k = 0
    · subst hk; simpa [default_m] using hn
    · simp only [default_m, bne_iff_ne, ne_eq, hk, not_false_eq_true, if_true]
      omega

theorem length_make_bs_lst (npI : Nat → Nat → Nat → Nat → Nat) (w n_bs n_s : Nat)
    (m_bs : Option Nat) (seed : Option String) :
    (make_bs_lst npI w n_bs n_s m_bs seed).length = n_bs := by
  simp [make_bs_lst, gen_integers]

theorem row_length_make_bs_lst (npI : Nat → Nat → Nat → Nat → Nat) (w n_bs n_s : Nat)
    (m_bs : Option Nat) (seed : Option String) :
    ∀ row ∈ make_bs_lst npI w n_bs n_s m_bs seed, row.length = default_m m_bs n_s := by
  intro row hrow
  simp only [make_bs_lst, gen_integers, List.mem_map, List.mem_range] at hrow
  obtain ⟨r, _, rfl⟩ := hrow
  simp

theorem mem_make_bs_lst_lt (npI : Nat → Nat → Nat → Nat → Nat)
    (Hr : ∀ e lo hi i, lo < hi → lo ≤ npI e lo hi i ∧ npI e lo hi i < hi)
    (w n_bs n_s : Nat) (m_bs : Option Nat) (seed : Option String) (hs : 0 < n_s) :
    ∀ row ∈ make_bs_lst npI w n_bs n_s m_bs seed, ∀ x ∈ row, x < n_s := by
  intro row hrow x hx
  simp only [make_bs_lst, gen_integers, List.mem_map, List.mem_range] at hrow
  obtain ⟨r, _, rfl⟩ := hrow
  simp only [List.mem_map, List.mem_range] at hx
  obtain ⟨c, _, rfl⟩ := hx
  exact (Hr _ 0 _ _ hs).2

theorem gather_length (corr : List Obs) (bsl : List (List Nat)) :
    (gather corr bsl).length = bsl.length := List.length_map _ _

theorem gather_row_length (corr : List Obs) (bsl : List (List Nat)) (m : Nat)
    (h : ∀ row ∈ bsl, row.length = m) :
    ∀ r ∈ gather corr bsl, r.length = m := by
  intro r hr
  simp only [gather, List.mem_map] at hr
  obtain ⟨row, hrow, rfl⟩ := hr
  rw [List.length_map]
  exact h row hrow

theorem gather_uniform (T : Nat) (corr : List Obs) (bsl : List (List Nat))
    (hu : ∀ v ∈ corr, v.length = T)
    (hidx : ∀ row ∈ bsl, ∀ i ∈ row, i < corr.length) :
    ∀ r ∈ gather corr bsl, ∀ v ∈ r, v.length = T := by
  intro r hr v hv
  simp only [gather, List.mem_map] at hr
  obtain ⟨row, hrow, rfl⟩ := hr
  simp only [List.mem_map] at hv
  obtain ⟨i, hi, rfl⟩ := hv
  have hlt : i < corr.length := hidx row hrow i hi
  rw [List.getD_eq_getElem _ _ hlt]
  exact hu _ (List.getElem_mem hlt)

/-! ### Hex round trip and digest byte bounds, for `get_rng` -/

theorem hexVal_hexChar : ∀ n < 16, hexVal (hexChar n) = n := by decide

theorem foldl_hex_bytes (bs : List Nat) (h : ∀ b ∈ bs, b < 256) : ∀ acc : Nat,
    ((bs.map (fun b => [hexChar (b / 16), hexChar (b % 16)])).flatten).foldl
        (fun acc c => 16 * acc + hexVal c) acc =
      bs.foldl (fun acc b => 256 * acc + b) acc := by
  induction bs with
  | nil => intro acc; rfl
  | cons b bs ih =>
    intro acc
    have hb : b < 256 := h b (List.mem_cons_self _ _)
    simp only [List.map_cons, List.flatten_cons, List.foldl_append, List.foldl_cons,
      List.foldl_nil]
    rw [ih (fun x hx => h x (List.mem_cons_of_mem _ hx))]
    have h1 : hexVal (hexChar (b / 16)) = b / 16 := hexVal_hexChar _ (by omega)
    have h2 : hexVal (hexChar (b % 16)) = b % 16 := hexVal_hexChar _ (by omega)
    rw [h1, h2]
    congr 1
    omega

theorem int16_hexdigest (bs : List Nat) (h : ∀ b ∈ bs, b < 256) :
    int16 (hexdigest bs) = beBytesVal bs := by
  rw [int16, hexdigest, beBytesVal]
  exact foldl_hex_bytes bs h 0

theorem wordBytesLE_lt (x : Nat) : ∀ b ∈ wordBytesLE x, b < 256 := by
  intro b hb
  simp only [wordBytesLE, List.mem_map, List.mem_range] at hb
  obtain ⟨i, _, rfl⟩ := hb
  omega

theorem md5Bytes_lt (msg : List Nat) : ∀ b ∈ md5Bytes msg, b < 256 := by
  intro b hb
  rw [md5Bytes] at hb
  simp only [List.mem_append] at hb
  rcases hb with ((h | h) | h) | h <;> exact wordBytesLE_lt _ _ h

/-- The concrete witness draw primitive satisfies the documented range
contract of `rng.integers`. -/
theorem cNpI_range : ∀ e lo hi i, lo < hi → lo ≤ cNpI e lo hi i ∧ cNpI e lo hi i < hi := by
  intro e lo hi i hlt
  constructor
  · exact Nat.le_add_right _ _
  · have h1 : (e + i) % (hi - lo) < hi - lo := Nat.mod_lt _ (by omega)
    simp only [cNpI]
    omega

/-! ### Unfolding the two `bs_corrs` modes -/

/-- The default branch of `bs_corrs` computes exactly the spec's default
reduction, applied to the index list `make_bs_lst` would generate. -/
theorem bs_corrs_fst_default (sq : ℚ → ℚ) (npI : Nat → Nat → Nat → Nat → Nat)
    (world : Nat) (corr : List Obs) (Nbs : Nat) (Mbs : Option Nat)
    (seed : Option String) (rbl : Bool) :
    (bs_corrs sq npI world corr Nbs Mbs seed rbl false).1 =
      BsArr.reps (spec_bs_corrs_default sq corr
        (make_bs_lst npI world Nbs corr.length Mbs seed) (default_m Mbs corr.length)) := rfl

/-- The `return_mbs` branch of `bs_corrs` computes exactly the spec's joint
reduction, applied to the index list `make_bs_lst` would generate. -/
theorem bs_corrs_fst_mbs (sq : ℚ → ℚ) (npI : Nat → Nat → Nat → Nat → Nat)
    (world : Nat) (corr : List Obs) (Nbs : Nat) (Mbs : Option Nat)
    (seed : Option String) (rbl : Bool) :
    (bs_corrs sq npI world corr Nbs Mbs seed rbl true).1 =
      BsArr.cells (spec_bs_corrs_mbs sq corr
        (make_bs_lst npI world Nbs corr.length Mbs seed) (default_m Mbs corr.length)) := rfl

theorem spec_default_eq_map (sq : ℚ → ℚ) (corr : List Obs) (bsl : List (List Nat))
    (m : Nat) :
    spec_bs_corrs_default sq corr bsl m =
      ((gather corr bsl).map vmean).map
        (fun x => rescaleObs (sq ((m : ℚ) / (corr.length : ℚ)))
          (vmean ((gather corr bsl).map vmean)) x) := rfl

theorem spec_mbs_eq_map (sq : ℚ → ℚ) (corr : List Obs) (bsl : List (List Nat))
    (m : Nat) :
    spec_bs_corrs_mbs sq corr bsl m =
      (gather corr bsl).map (fun row => row.map
        (fun x => rescaleObs (sq ((m : ℚ) / (corr.length : ℚ)))
          (vmean (gather corr bsl).flatten) x)) := rfl

/-- Per-replica means of a gathered stack: all have the observable length. -/
theorem replica_means_uniform (T : Nat) (corr : List Obs) (bsl : List (List Nat))
    (m : Nat) (hu : ∀ v ∈ corr, v.length = T)
    (hidx : ∀ row ∈ bsl, ∀ i ∈ row, i < corr.length)
    (hrow : ∀ row ∈ bsl, row.length = m) (hm : 0 < m) :
    ∀ v ∈ (gather corr bsl).map vmean, v.length = T := by
  intro v hv
  obtain ⟨r, hr, rfl⟩ := List.mem_map.mp hv
  refine length_vmean T r (gather_uniform T corr bsl hu hidx r hr) ?_
  have := gather_row_length corr bsl m hrow r hr
  exact List.length_pos.mp (this ▸ hm)

theorem gather_flatten_uniform (T : Nat) (corr : List Obs) (bsl : List (List Nat))
    (hu : ∀ v ∈ corr, v.length = T)
    (hidx : ∀ row ∈ bsl, ∀ i ∈ row, i < corr.length) :
    ∀ v ∈ (gather corr bsl).flatten, v.length = T := by
  intro v hv
  obtain ⟨r, hr, hvr⟩ := List.mem_flatten.mp hv
  exact gather_uniform T corr bsl hu hidx r hr v hvr

theorem gather_flatten_ne_nil (corr : List Obs) (bsl : List (List Nat)) (m : Nat)
    (hrow : ∀ row ∈ bsl, row.length = m) (hm : 0 < m) (hb : bsl ≠ []) :
    (gather corr bsl).flatten ≠ [] := by
  refine List.flatten_ne_nil_iff.mpr ?_
  match bsl with
  | [] => exact absurd rfl hb
  | row :: rest =>
    refine ⟨row.map (fun i => corr.getD i []), List.mem_cons_self _ _, ?_⟩
    have : (row.map (fun i => corr.getD i [])).length = m := by
      rw [List.length_map]; exact hrow row (List.mem_cons_self _ _)
    exact List.length_pos.mp (this ▸ hm)

theorem make_bs_lst_ne_nil (npI : Nat → Nat → Nat → Nat → Nat) (w n_bs n_s : Nat)
    (m_bs : Option Nat) (seed : Option String) (hb : 0 < n_bs) :
    make_bs_lst npI w n_bs n_s m_bs seed ≠ [] := by
  have h := length_make_bs_lst npI w n_bs n_s m_bs seed
  refine List.length_pos.mp ?_
  rw [h]
  exact hb

theorem pick_rng_some (w : Nat) (s : String) (hs : s ≠ "") :
    pick_rng w (some s) = get_rng s := by
  simp [pick_rng, hs]

/-! ### The claims -/

/-- C1: `get_rng(s)` computes the MD5 digest of the UTF-8 encoding of `s`,
renders it as a hexadecimal string, parses that string base 16 (which
yields the big-endian integer value of the digest bytes), reduces modulo
10^6, and seeds the PCG64 generator's seed sequence with the result; the
generator is a function of `s` alone and its seed integer lies in
`[0, 10^6)`. -/
theorem C1_get_rng_derivation (s : String) :
    get_rng s = ⟨beBytesVal (md5Bytes (strUtf8 s)) % 10 ^ 6⟩ ∧
    get_rng s = ⟨int16 (hexdigest (md5Bytes (strUtf8 s))) % 10 ^ 6⟩ ∧
    (get_rng s).entropy < 10 ^ 6 := by
  refine ⟨?_, rfl, ?_⟩
  · show Generator.mk (int16 (hexdigest (md5Bytes (strUtf8 s))) % 10 ^ 6) = _
    congr 1
    rw [int16_hexdigest _ (md5Bytes_lt _)]
  · show int16 (hexdigest (md5Bytes (strUtf8 s))) % 10 ^ 6 < 10 ^ 6
    exact Nat.mod_lt _ (by norm_num)

/-- C3 counterexample: the claim's shape `[n_bs, m_bs]` fails when
`m_bs = 0` is passed explicitly: with `n_bs = 1`, `n_s = 2`, `m_bs = 0`
the rows do not have length `0` (they have length `n_s = 2`, the falsy
default). -/
theorem C3_counterexample :
    ¬ (∀ row ∈ make_bs_lst cNpI 0 1 2 (some 0) none, row.length = 0) := by decide

/-- C3 (amended): `make_bs_lst(n_bs, n_s, m_bs, seed)` returns a 2-D integer
array with `n_bs` rows of length `m_bs` when `m_bs` is provided and
nonzero, and of length `n_s` when `m_bs` is omitted or zero; every entry
lies in `[0, n_s)`. -/
theorem C3_make_bs_lst_shape (npI : Nat → Nat → Nat → Nat → Nat)
    (w n_bs n_s : Nat) (m_bs : Option Nat) (seed : Option String)
    (Hr : ∀ e lo hi i, lo < hi → lo ≤ npI e lo hi i ∧ npI e lo hi i < hi)
    (hb : 0 < n_bs) (hs : 0 < n_s) :
    (make_bs_lst npI w n_bs n_s m_bs seed).length = n_bs ∧
    (∀ row ∈ make_bs_lst npI w n_bs n_s m_bs seed, row.length = default_m m_bs n_s) ∧
    (∀ k, m_bs = some k → k ≠ 0 → default_m m_bs n_s = k) ∧
    (m_bs = none → default_m m_bs n_s = n_s) ∧
    (m_bs = some 0 → default_m m_bs n_s = n_s) ∧
    (∀ row ∈ make_bs_lst npI w n_bs n_s m_bs seed, ∀ x ∈ row, x < n_s) := by
  refine ⟨length_make_bs_lst npI w n_bs n_s m_bs seed,
    row_length_make_bs_lst npI w n_bs n_s m_bs seed, ?_, ?_, ?_,
    mem_make_bs_lst_lt npI Hr w n_bs n_s m_bs seed hs⟩
  · intro k hk hk0
    subst hk
    simp [default_m, hk0]
  · intro hk
    subst hk
    rfl
  · intro hk
    subst hk
    rfl

/-- C4: for a fixed non-empty seed string and fixed `(n_bs, n_s, m_bs)`, any
two invocations of `make_bs_lst` agree exactly, whatever the ambient
process randomness is (the seeded generator is rebuilt from the seed
string alone); in particular with seed `"test"`, `n_bs = 3`, `n_s = 5` the
same `[3, 5]` integer array is returned on every call. -/
theorem C4_make_bs_lst_determinism (npI : Nat → Nat → Nat → Nat → Nat)
    (w1 w2 n_bs n_s : Nat) (m_bs : Option Nat) (s : String) (hs : s ≠ "") :
    make_bs_lst npI w1 n_bs n_s m_bs (some s) =
      make_bs_lst npI w2 n_bs n_s m_bs (some s) ∧
    make_bs_lst npI w1 3 5 none (some "test") =
      make_bs_lst npI w2 3 5 none (some "test") ∧
    (make_bs_lst npI w1 3 5 none (some "test")).length = 3 ∧
    (∀ row ∈ make_bs_lst npI w1 3 5 none (some "test"), row.length = 5) := by
  refine ⟨?_, ?_, length_make_bs_lst npI w1 3 5 none (some "test"),
    row_length_make_bs_lst npI w1 3 5 none (some "test")⟩
  · rw [make_bs_lst, make_bs_lst, pick_rng_some w1 s hs, pick_rng_some w2 s hs]
  · rw [make_bs_lst, make_bs_lst, pick_rng_some w1 "test" (by decide),
      pick_rng_some w2 "test" (by decide)]

/-- C8: passing `m_bs = 0` to `make_bs_lst` (resp. `Mbs = 0` to `bs_corrs`)
is treated exactly like omitting the argument: the per-replica draw count
falls back to `n_s` (resp. `Ncfg`), no zero draw count is ever used, and
no error is raised. -/
theorem C8_zero_mbs_defaults (sq : ℚ → ℚ) (npI : Nat → Nat → Nat → Nat → Nat)
    (w n_bs n_s : Nat) (seed : Option String) (corr : List Obs) (Nbs : Nat)
    (rbl rmbs : Bool) :
    make_bs_lst npI w n_bs n_s (some 0) seed = make_bs_lst npI w n_bs n_s none seed ∧
    default_m (some 0) n_s = n_s ∧
    bs_corrs sq npI w corr Nbs (some 0) seed rbl rmbs =
      bs_corrs sq npI w corr Nbs none seed rbl rmbs ∧
    default_m (some 0) corr.length = corr.length :=
  ⟨rfl, rfl, rfl, rfl⟩

/-- C9: `bs_prior` with `normal = false` terminates the process via
`sys.exit` with a clear diagnostic and exit status 1 (non-zero); no
numeric result is ever returned on that path. -/
theorem C9_bs_prior_nonnormal_exits (npNormal : Nat → ℚ → ℚ → Nat → ℚ)
    (w n_bs : Nat) (mean sdev : ℚ) (seed : Option String) :
    bs_prior npNormal w n_bs mean sdev seed false =
      ProcResult.exit 1 "Non-Gaussian distributions not currently supported" ∧
    (1 : Nat) ≠ 0 ∧
    ∀ v : List ℚ, bs_prior npNormal w n_bs mean sdev seed false ≠ ProcResult.ok v := by
  refine ⟨rfl, by decide, fun v h => ?_⟩
  simp [bs_prior] at h

/-- C10: the index list `bs_corrs(corr, Nbs, Mbs, seed)` generates
internally — returned as the second component when `return_bs_list` — is
exactly `make_bs_lst(Nbs, Ncfg, Mbs, seed)` with the same seed, and it is
the same whether or not `return_mbs` is set. -/
theorem C10_bs_list_refinement (sq : ℚ → ℚ) (npI : Nat → Nat → Nat → Nat → Nat)
    (world : Nat) (corr : List Obs) (Nbs : Nat) (Mbs : Option Nat) (s : String)
    (rmbs : Bool) (hs : s ≠ "") :
    (bs_corrs sq npI world corr Nbs Mbs (some s) true rmbs).2 =
      some (make_bs_lst npI world Nbs corr.length Mbs (some s)) ∧
    (bs_corrs sq npI world corr Nbs Mbs (some s) true true).2 =
      (bs_corrs sq npI world corr Nbs Mbs (some s) true false).2 :=
  ⟨rfl, rfl⟩

/-- C2: with `return_mbs = false`, `bs_corrs` gathers `corr[bs_list[bs]]`
for each replica, averages over the draw axis, takes the grand mean over
replicas, and returns grand mean + (per-replica mean − grand mean) ·
`sqrt(m_bs / Ncfg)`: an array of shape `[Nbs] + observable_shape`. -/
theorem C2_bs_corrs_default_formula (sq : ℚ → ℚ) (npI : Nat → Nat → Nat → Nat → Nat)
    (world : Nat) (corr : List Obs) (T Nbs : Nat) (Mbs : Option Nat)
    (seed : Option String) (rbl : Bool)
    (Hr : ∀ e lo hi i, lo < hi → lo ≤ npI e lo hi i ∧ npI e lo hi i < hi)
    (hN : 0 < corr.length) (hB : 0 < Nbs) (hu : ∀ v ∈ corr, v.length = T) :
    (bs_corrs sq npI world corr Nbs Mbs seed rbl false).1 =
      BsArr.reps (spec_bs_corrs_default sq corr
        (make_bs_lst npI world Nbs corr.length Mbs seed) (default_m Mbs corr.length)) ∧
    (spec_bs_corrs_default sq corr (make_bs_lst npI world Nbs corr.length Mbs seed)
        (default_m Mbs corr.length)).length = Nbs ∧
    ∀ v ∈ spec_bs_corrs_default sq corr (make_bs_lst npI world Nbs corr.length Mbs seed)
        (default_m Mbs corr.length), v.length = T := by
  have hidx := mem_make_bs_lst_lt npI Hr world Nbs corr.length Mbs seed hN
  have hrow := row_length_make_bs_lst npI world Nbs corr.length Mbs seed
  have hmpos := default_m_pos Mbs corr.length hN
  have hrepl := replica_means_uniform T corr (make_bs_lst npI world Nbs corr.length Mbs seed)
    (default_m Mbs corr.length) hu hidx hrow hmpos
  have hrepl_ne : (gather corr (make_bs_lst npI world Nbs corr.length Mbs seed)).map vmean ≠ [] := by
    refine List.length_pos.mp ?_
    rw [List.length_map, gather_length, length_make_bs_lst]
    exact hB
  refine ⟨bs_corrs_fst_default sq npI world corr Nbs Mbs seed rbl, ?_, ?_⟩
  · rw [spec_default_eq_map, List.length_map, List.length_map, gather_length,
      length_make_bs_lst]
  · intro v hv
    rw [spec_default_eq_map] at hv
    obtain ⟨x, hx, rfl⟩ := List.mem_map.mp hv
    exact length_rescaleObs T _ _ x (length_vmean T _ hrepl hrepl_ne) (hrepl x hx)

/-- C5: with `return_mbs = true`, `bs_corrs` takes the grand mean of the
gathered stack over both leading axes jointly and returns grand mean +
(cell − grand mean) · `sqrt(m_bs / Ncfg)` for every (replica, draw) cell:
an array of shape `[Nbs, m_bs] + observable_shape`, the draw axis not
averaged. -/
theorem C5_bs_corrs_mbs_formula (sq : ℚ → ℚ) (npI : Nat → Nat → Nat → Nat → Nat)
    (world : Nat) (corr : List Obs) (T Nbs : Nat) (Mbs : Option Nat)
    (seed : Option String) (rbl : Bool)
    (Hr : ∀ e lo hi i, lo < hi → lo ≤ npI e lo hi i ∧ npI e lo hi i < hi)
    (hN : 0 < corr.length) (hB : 0 < Nbs) (hu : ∀ v ∈ corr, v.length = T) :
    (bs_corrs sq npI world corr Nbs Mbs seed rbl true).1 =
      BsArr.cells (spec_bs_corrs_mbs sq corr
        (make_bs_lst npI world Nbs corr.length Mbs seed) (default_m Mbs corr.length)) ∧
    (spec_bs_corrs_mbs sq corr (make_bs_lst npI world Nbs corr.length Mbs seed)
        (default_m Mbs corr.length)).length = Nbs ∧
    (∀ row ∈ spec_bs_corrs_mbs sq corr (make_bs_lst npI world Nbs corr.length Mbs seed)
        (default_m Mbs corr.length), row.length = default_m Mbs corr.length) ∧
    ∀ row ∈ spec_bs_corrs_mbs sq corr (make_bs_lst npI world Nbs corr.length Mbs seed)
        (default_m Mbs corr.length), ∀ v ∈ row, v.length = T := by
  have hidx := mem_make_bs_lst_lt npI Hr world Nbs corr.length Mbs seed hN
  have hrow := row_length_make_bs_lst npI world Nbs corr.length Mbs seed
  have hmpos := default_m_pos Mbs corr.length hN
  have hg := gather_uniform T corr (make_bs_lst npI world Nbs corr.length Mbs seed) hu hidx
  have hfl := gather_flatten_uniform T corr (make_bs_lst npI world Nbs corr.length Mbs seed) hu hidx
  have hfl_ne := gather_flatten_ne_nil corr (make_bs_lst npI world Nbs corr.length Mbs seed)
    (default_m Mbs corr.length) hrow hmpos
    (make_bs_lst_ne_nil npI world Nbs corr.length Mbs seed hB)
  refine ⟨bs_corrs_fst_mbs sq npI world corr Nbs Mbs seed rbl, ?_, ?_, ?_⟩
  · rw [spec_mbs_eq_map, List.length_map, gather_length, length_make_bs_lst]
  · intro row hrow2
    rw [spec_mbs_eq_map] at hrow2
    obtain ⟨r, hr, rfl⟩ := List.mem_map.mp hrow2
    rw [List.length_map]
    exact gather_row_length corr _ _ hrow r hr
  · intro row hrow2 v hv
    rw [spec_mbs_eq_map] at hrow2
    obtain ⟨r, hr, rfl⟩ := List.mem_map.mp hrow2
    obtain ⟨x, hx, rfl⟩ := List.mem_map.mp hv
    exact length_rescaleObs T _ _ x (length_vmean T _ hfl hfl_ne) (hg r hr x hx)

/-- C6: the mean of the `bs_corrs` output over its leading bootstrap axis
(both leading axes when `return_mbs`) equals the unscaled grand mean
computed before rescaling — rescaling by `sqrt(m_bs / Ncfg)` moves only
the spread, not the centre (exactly, in rational arithmetic). -/
theorem C6_mean_preservation (sq : ℚ → ℚ) (npI : Nat → Nat → Nat → Nat → Nat)
    (world : Nat) (corr : List Obs) (T Nbs : Nat) (Mbs : Option Nat)
    (seed : Option String) (rbl : Bool)
    (Hr : ∀ e lo hi i, lo < hi → lo ≤ npI e lo hi i ∧ npI e lo hi i < hi)
    (hN : 0 < corr.length) (hB : 0 < Nbs) (hu : ∀ v ∈ corr, v.length = T) :
    (∀ out, (bs_corrs sq npI world corr Nbs Mbs seed rbl false).1 = BsArr.reps out →
      vmean out =
        vmean ((gather corr (make_bs_lst npI world Nbs corr.length Mbs seed)).map vmean)) ∧
    (∀ out, (bs_corrs sq npI world corr Nbs Mbs seed rbl true).1 = BsArr.cells out →
      vmean out.flatten =
        vmean (gather corr (make_bs_lst npI world Nbs corr.length Mbs seed)).flatten) := by
  have hidx := mem_make_bs_lst_lt npI Hr world Nbs corr.length Mbs seed hN
  have hrow := row_length_make_bs_lst npI world Nbs corr.length Mbs seed
  have hmpos := default_m_pos Mbs corr.length hN
  have hrepl := replica_means_uniform T corr (make_bs_lst npI world Nbs corr.length Mbs seed)
    (default_m Mbs corr.length) hu hidx hrow hmpos
  have hrepl_ne : (gather corr (make_bs_lst npI world Nbs corr.length Mbs seed)).map vmean ≠ [] := by
    refine List.length_pos.mp ?_
    rw [List.length_map, gather_length, length_make_bs_lst]
    exact hB
  have hfl := gather_flatten_uniform T corr (make_bs_lst npI world Nbs corr.length Mbs seed) hu hidx
  have hfl_ne := gather_flatten_ne_nil corr (make_bs_lst npI world Nbs corr.length Mbs seed)
    (default_m Mbs corr.length) hrow hmpos
    (make_bs_lst_ne_nil npI world Nbs corr.length Mbs seed hB)
  constructor
  · intro out h
    rw [bs_corrs_fst_default] at h
    injection h with h
    subst h
    rw [spec_default_eq_map]
    exact vmean_rescale T _ _ hrepl hrepl_ne
  · intro out h
    rw [bs_corrs_fst_mbs] at h
    injection h with h
    subst h
    rw [spec_mbs_eq_map, ← List.map_flatten]
    exact vmean_rescale T _ _ hfl hfl_ne

/-- C7: when the per-replica draw count equals the original sample count
(`Mbs = Ncfg` or `Mbs` omitted), the rescale factor is `sqrt(1) = 1` and
`bs_corrs` returns the unscaled bootstrap result: the per-replica averages
in default mode and the raw gathered samples when `return_mbs`. -/
theorem C7_unit_rescale (sq : ℚ → ℚ) (npI : Nat → Nat → Nat → Nat → Nat)
    (world : Nat) (corr : List Obs) (T Nbs : Nat) (Mbs : Option Nat)
    (seed : Option String) (rbl : Bool)
    (Hr : ∀ e lo hi i, lo < hi → lo ≤ npI e lo hi i ∧ npI e lo hi i < hi)
    (hN : 0 < corr.length) (hB : 0 < Nbs) (hu : ∀ v ∈ corr, v.length = T)
    (hM : Mbs = none ∨ Mbs = some corr.length) (hsq : sq 1 = 1) :
    (bs_corrs sq npI world corr Nbs Mbs seed rbl false).1 =
      BsArr.reps ((gather corr (make_bs_lst npI world Nbs corr.length Mbs seed)).map vmean) ∧
    (bs_corrs sq npI world corr Nbs Mbs seed rbl true).1 =
      BsArr.cells (gather corr (make_bs_lst npI world Nbs corr.length Mbs seed)) := by
  have hidx := mem_make_bs_lst_lt npI Hr world Nbs corr.length Mbs seed hN
  have hrow := row_length_make_bs_lst npI world Nbs corr.length Mbs seed
  have hmpos := default_m_pos Mbs corr.length hN
  have hrepl := replica_means_uniform T corr (make_bs_lst npI world Nbs corr.length Mbs seed)
    (default_m Mbs corr.length) hu hidx hrow hmpos
  have hrepl_ne : (gather corr (make_bs_lst npI world Nbs corr.length Mbs seed)).map vmean ≠ [] := by
    refine List.length_pos.mp ?_
    rw [List.length_map, gather_length, length_make_bs_lst]
    exact hB
  have hg := gather_uniform T corr (make_bs_lst npI world Nbs corr.length Mbs seed) hu hidx
  have hfl := gather_flatten_uniform T corr (make_bs_lst npI world Nbs corr.length Mbs seed) hu hidx
  have hfl_ne := gather_flatten_ne_nil corr (make_bs_lst npI world Nbs corr.length Mbs seed)
    (default_m Mbs corr.length) hrow hmpos
    (make_bs_lst_ne_nil npI world Nbs corr.length Mbs seed hB)
  have hm_eq : default_m Mbs corr.length = corr.length := by
    rcases hM with rfl | rfl
    · rfl
    · simp [default_m]
  have hc : sq ((default_m Mbs corr.length : ℚ) / (corr.length : ℚ)) = 1 := by
    rw [hm_eq, div_self (by exact_mod_cast hN.ne')]
    exact hsq
  constructor
  · rw [bs_corrs_fst_default, spec_default_eq_map, hc]
    congr 1
    have := List.map_congr_left (l := (gather corr
        (make_bs_lst npI world Nbs corr.length Mbs seed)).map vmean)
      (f := fun x => rescaleObs 1
        (vmean ((gather corr (make_bs_lst npI world Nbs corr.length Mbs seed)).map vmean)) x)
      (g := id)
      (fun x hx => rescaleObs_one _ x
        (by rw [length_vmean T _ hrepl hrepl_ne, hrepl x hx]))
    rw [this, List.map_id]
  · rw [bs_corrs_fst_mbs, spec_mbs_eq_map, hc]
    congr 1
    have hout : ∀ r ∈ gather corr (make_bs_lst npI world Nbs corr.length Mbs seed),
        r.map (fun x => rescaleObs 1
          (vmean (gather corr (make_bs_lst npI world Nbs corr.length Mbs seed)).flatten) x) =
        id r := by
      intro r hr
      have := List.map_congr_left (l := r)
        (f := fun x => rescaleObs 1
          (vmean (gather corr (make_bs_lst npI world Nbs corr.length Mbs seed)).flatten) x)
        (g := id)
        (fun x hx => rescaleObs_one _ x
          (by rw [length_vmean T _ hfl hfl_ne, hg r hr x hx]))
      rw [this, List.map_id]
      rfl
    rw [List.map_congr_left hout, List.map_id]

/-! ### Concrete witnesses -/

theorem C2_witness :
    (bs_corrs id cNpI 0 [[(1 : ℚ)], [2], [3]] 2 none (some "test") true false).1 =
      BsArr.reps (spec_bs_corrs_default id [[(1 : ℚ)], [2], [3]]
        (make_bs_lst cNpI 0 2 3 none (some "test")) 3) :=
  (C2_bs_corrs_default_formula id cNpI 0 [[(1 : ℚ)], [2], [3]] 1 2 none (some "test")
    true cNpI_range (by decide) (by decide) (by decide)).1

theorem C3_witness :
    (make_bs_lst cNpI 0 3 5 none (some "test")).length = 3 :=
  (C3_make_bs_lst_shape cNpI 0 3 5 none (some "test") cNpI_range (by decide) (by decide)).1

theorem C4_witness :
    make_bs_lst cNpI 0 3 5 none (some "test") = make_bs_lst cNpI 1 3 5 none (some "test") :=
  (C4_make_bs_lst_determinism cNpI 0 1 3 5 none "test" (by decide)).1

theorem C5_witness :
    (bs_corrs id cNpI 0 [[(1 : ℚ)], [2], [3]] 2 none (some "test") true true).1 =
      BsArr.cells (spec_bs_corrs_mbs id [[(1 : ℚ)], [2], [3]]
        (make_bs_lst cNpI 0 2 3 none (some "test")) 3) :=
  (C5_bs_corrs_mbs_formula id cNpI 0 [[(1 : ℚ)], [2], [3]] 1 2 none (some "test")
    true cNpI_range (by decide) (by decide) (by decide)).1

theorem C6_witness :
    vmean (spec_bs_corrs_default id [[(1 : ℚ)], [2], [3]]
        (make_bs_lst cNpI 0 2 3 none (some "test")) 3) =
      vmean ((gather [[(1 : ℚ)], [2], [3]]
        (make_bs_lst cNpI 0 2 3 none (some "test"))).map vmean) :=
  (C6_mean_preservation id cNpI 0 [[(1 : ℚ)], [2], [3]] 1 2 none (some "test") true
    cNpI_range (by decide) (by decide) (by decide)).1
    (spec_bs_corrs_default id [[(1 : ℚ)], [2], [3]]
      (make_bs_lst cNpI 0 2 3 none (some "test")) 3) rfl

theorem C7_witness :
    (bs_corrs id cNpI 0 [[(1 : ℚ)], [2], [3]] 2 none (some "test") true false).1 =
      BsArr.reps ((gather [[(1 : ℚ)], [2], [3]]
        (make_bs_lst cNpI 0 2 3 none (some "test"))).map vmean) :=
  (C7_unit_rescale id cNpI 0 [[(1 : ℚ)], [2], [3]] 1 2 none (some "test") true
    cNpI_range (by decide) (by decide) (by decide) (Or.inl rfl) rfl).1

theorem C10_witness :
    (bs_corrs id cNpI 0 [[(1 : ℚ)], [2], [3]] 2 none (some "test") true false).2 =
      some (make_bs_lst cNpI 0 2 3 none (some "test")) :=
  (C10_bs_list_refinement id cNpI 0 [[(1 : ℚ)], [2], [3]] 2 none "test" false
    (by decide)).1

end BsUtils
